import Mathlib

/-!
# Verification of the Gutenberg nextpage/audio-player sources

Shallow embedding of `packages/block-library/src/nextpage/index.js`
(the page-break block's module exports and the audio block's native
`Player` component) as pure Lean functions, together with theorems
about the behaviour the specification describes.

Strings manipulated character-by-character (the file-name splitting)
are modelled as `List Char`; strings only compared or concatenated
are modelled as `String`.
-/

set_option autoImplicit false

namespace Gutenberg

/-! ## File-name splitting in the Player

The source computes, for a truthy `fileName`,
`parts = fileName.split('.')`, `extension = parts.pop().toUpperCase()`
and `title = parts.join('.')`; for a falsy `fileName` both stay `''`.
`splitOnDot` embeds JavaScript `String.prototype.split` with the
one-character separator `'.'` and `joinDot` embeds
`Array.prototype.join('.')`. -/

def splitOnDot : List Char → List (List Char)
  | [] => [[]]
  | c :: cs =>
    match splitOnDot cs with
    | [] => [[]]
    | p :: ps => if c = '.' then [] :: p :: ps else (c :: p) :: ps

def joinDot : List (List Char) → List Char
  | [] => []
  | [p] => p
  | p :: q :: qs => p ++ '.' :: joinDot (q :: qs)

/-- The `title`/`extension` computation of the `Player` component:
`parts.pop()` removes and returns the last segment (upper-cased into
`extension`), `parts.join('.')` re-joins the remaining segments into
`title`. A falsy (empty) file name leaves both empty. -/
def titleAndExtension (fileName : List Char) : List Char × List Char :=
  if fileName = [] then ([], [])
  else
    let parts := splitOnDot fileName
    (joinDot parts.dropLast, (parts.getLastD []).map Char.toUpper)

theorem splitOnDot_cons_of_eq (c : Char) (cs p : List Char) (ps : List (List Char))
    (h : splitOnDot cs = p :: ps) :
    splitOnDot (c :: cs) = if c = '.' then [] :: p :: ps else (c :: p) :: ps := by
  simp only [splitOnDot, h]

theorem splitOnDot_ne_nil (s : List Char) : splitOnDot s ≠ [] := by
  induction s with
  | nil => simp [splitOnDot]
  | cons c cs ih =>
    cases h : splitOnDot cs with
    | nil => exact absurd h ih
    | cons p ps =>
      rw [splitOnDot_cons_of_eq c cs p ps h]
      by_cases hc : c = '.' <;> simp [hc]

theorem joinDot_splitOnDot (s : List Char) : joinDot (splitOnDot s) = s := by
  induction s with
  | nil => rfl
  | cons c cs ih =>
    cases h : splitOnDot cs with
    | nil => exact absurd h (splitOnDot_ne_nil cs)
    | cons p ps =>
      rw [h] at ih
      rw [splitOnDot_cons_of_eq c cs p ps h]
      by_cases hc : c = '.'
      · rw [if_pos hc, hc]
        have : joinDot ([] :: p :: ps) = [] ++ '.' :: joinDot (p :: ps) := rfl
        rw [this, ih]
        rfl
      · rw [if_neg hc]
        cases ps with
        | nil =>
          have h2 : joinDot [p] = p := rfl
          rw [h2] at ih
          have h3 : joinDot [c :: p] = c :: p := rfl
          rw [h3, ih]
        | cons q qs =>
          have h2 : joinDot ((c :: p) :: q :: qs) = (c :: p) ++ '.' :: joinDot (q :: qs) := rfl
          have h3 : joinDot (p :: q :: qs) = p ++ '.' :: joinDot (q :: qs) := rfl
          rw [h3] at ih
          rw [h2, List.cons_append, ih]

theorem dot_not_mem_parts (s : List Char) :
    ∀ p ∈ splitOnDot s, '.' ∉ p := by
  induction s with
  | nil =>
    intro p hp
    simp [splitOnDot] at hp
    simp [hp]
  | cons c cs ih =>
    intro p hp
    cases h : splitOnDot cs with
    | nil => exact absurd h (splitOnDot_ne_nil cs)
    | cons q qs =>
      rw [splitOnDot_cons_of_eq c cs q qs h] at hp
      by_cases hc : c = '.'
      · rw [if_pos hc] at hp
        rcases List.mem_cons.mp hp with h1 | h1
        · simp [h1]
        · exact ih p (h ▸ h1)
      · rw [if_neg hc] at hp
        rcases List.mem_cons.mp hp with h1 | h1
        · subst h1
          intro hmem
          rcases List.mem_cons.mp hmem with h2 | h2
          · exact hc h2.symm
          · exact ih q (h ▸ List.mem_cons_self q qs) h2
        · exact ih p (h ▸ List.mem_cons_of_mem q h1)

theorem splitOnDot_no_dot (s : List Char) (h : '.' ∉ s) :
    splitOnDot s = [s] := by
  induction s with
  | nil => rfl
  | cons c cs ih =>
    have hc : ¬ c = '.' := fun hc => h (hc ▸ List.mem_cons_self c cs)
    have hcs : '.' ∉ cs := fun hm => h (List.mem_cons_of_mem c hm)
    rw [splitOnDot_cons_of_eq c cs cs [] (ih hcs), if_neg hc]

theorem joinDot_concat (l : List (List Char)) (x : List Char) :
    joinDot (l ++ [x]) = if l = [] then x else joinDot l ++ '.' :: x := by
  induction l with
  | nil => rfl
  | cons p ps ih =>
    cases ps with
    | nil => simp [joinDot]
    | cons q qs =>
      have h1 : (p :: q :: qs) ++ [x] = p :: q :: (qs ++ [x]) := rfl
      have h2 : joinDot (p :: q :: (qs ++ [x])) = p ++ '.' :: joinDot (q :: (qs ++ [x])) := by
        cases qs <;> rfl
      have h3 : (q :: qs) ++ [x] = q :: (qs ++ [x]) := rfl
      rw [h3] at ih
      rw [if_neg (by simp)] at ih
      rw [h1, h2, ih, if_neg (by simp)]
      have h4 : joinDot (p :: q :: qs) = p ++ '.' :: joinDot (q :: qs) := rfl
      rw [h4]
      simp

/-- The Player's subtitle computation (`getSubtitleValue` in the source):
the upload-in-progress message wins over the upload-failed message,
otherwise the upper-cased extension followed by the translated
`' audio file'` suffix is shown. -/
def getSubtitleValue (isUploadInProgress isUploadFailed : Bool)
    (extension : String) : String :=
  if isUploadInProgress then "Uploading…"
  else if isUploadFailed then "Failed to insert audio file. Please tap for options."
  else extension ++ " audio file"

/-- String-level wrapper: the `title` local of the Player's render. -/
def playerTitle (fileName : String) : String :=
  String.mk (titleAndExtension fileName.data).1

/-- String-level wrapper: the `extension` local of the Player's render. -/
def playerExtension (fileName : String) : String :=
  String.mk (titleAndExtension fileName.data).2

/-- Claim C2: for every non-empty `fileName` the Player's displayed
extension is the upper-cased substring after the last `'.'` (the
extracted raw extension contains no dot, and when the name contains a
dot the name decomposes as `title ++ '.' :: rawExt`, so that dot is
the last one and `title` is everything before it); for an empty or
absent `fileName` both title and extension are empty. -/
theorem titleAndExtension_correct (fileName : List Char) :
    (fileName = [] → titleAndExtension fileName = ([], [])) ∧
    (fileName ≠ [] →
      ∃ rawExt : List Char,
        (titleAndExtension fileName).2 = rawExt.map Char.toUpper ∧
        '.' ∉ rawExt ∧
        (('.' ∉ fileName ∧ (titleAndExtension fileName).1 = [] ∧
            rawExt = fileName) ∨
          fileName = (titleAndExtension fileName).1 ++ '.' :: rawExt)) := by
  constructor
  · intro h
    simp [titleAndExtension, h]
  · intro h
    have hne := splitOnDot_ne_nil fileName
    obtain ⟨l, x, hlx⟩ : ∃ l x, splitOnDot fileName = l ++ [x] :=
      ⟨(splitOnDot fileName).dropLast, (splitOnDot fileName).getLast hne,
        (List.dropLast_append_getLast hne).symm⟩
    have hx_mem : x ∈ splitOnDot fileName := by
      rw [hlx]
      exact List.mem_append_right _ (List.mem_singleton.mpr rfl)
    have hx_nodot : '.' ∉ x := dot_not_mem_parts fileName x hx_mem
    have htitle : (titleAndExtension fileName).1 = joinDot l := by
      simp [titleAndExtension, h, hlx, List.dropLast_concat]
    have hext : (titleAndExtension fileName).2 = x.map Char.toUpper := by
      simp [titleAndExtension, h, hlx, List.getLastD_concat]
    refine ⟨x, hext, hx_nodot, ?_⟩
    have hjoin : joinDot (l ++ [x]) = fileName := by
      rw [← hlx]
      exact joinDot_splitOnDot fileName
    cases l with
    | nil =>
      left
      have hfx : fileName = x := hjoin.symm
      refine ⟨hfx ▸ hx_nodot, ?_, hfx.symm⟩
      rw [htitle]
      rfl
    | cons p ps =>
      right
      rw [htitle]
      rw [joinDot_concat, if_neg (by simp)] at hjoin
      exact hjoin.symm

theorem titleAndExtension_correct_witness :
    (['a', '.', 'm', 'p', '3'] : List Char) ≠ [] ∧
    (∃ rawExt : List Char,
      (titleAndExtension ['a', '.', 'm', 'p', '3']).2 = rawExt.map Char.toUpper ∧
      '.' ∉ rawExt ∧
      (('.' ∉ (['a', '.', 'm', 'p', '3'] : List Char) ∧
          (titleAndExtension ['a', '.', 'm', 'p', '3']).1 = [] ∧
          rawExt = ['a', '.', 'm', 'p', '3']) ∨
        ['a', '.', 'm', 'p', '3'] =
          (titleAndExtension ['a', '.', 'm', 'p', '3']).1 ++ '.' :: rawExt)) :=
  ⟨by decide, (titleAndExtension_correct ['a', '.', 'm', 'p', '3']).2 (by decide)⟩

/-- Claim C8: a non-empty `fileName` without any `'.'` yields an empty
title and the whole file name upper-cased as extension, so the subtitle
shows the entire name as if it were an extension. -/
theorem titleAndExtension_noDot (fileName : List Char)
    (h1 : fileName ≠ []) (h2 : '.' ∉ fileName) :
    (titleAndExtension fileName).1 = [] ∧
    (titleAndExtension fileName).2 = fileName.map Char.toUpper ∧
    getSubtitleValue false false (String.mk (titleAndExtension fileName).2) =
      String.mk (fileName.map Char.toUpper) ++ " audio file" := by
  have hsplit := splitOnDot_no_dot fileName h2
  have ht : (titleAndExtension fileName).1 = [] := by
    simp [titleAndExtension, h1, hsplit, joinDot]
  have he : (titleAndExtension fileName).2 = fileName.map Char.toUpper := by
    simp [titleAndExtension, h1, hsplit]
  refine ⟨ht, he, ?_⟩
  rw [he]
  rfl

theorem titleAndExtension_noDot_witness :
    (['d', 'e', 'm', 'o'] : List Char) ≠ [] ∧
    '.' ∉ (['d', 'e', 'm', 'o'] : List Char) ∧
    ((titleAndExtension ['d', 'e', 'm', 'o']).1 = [] ∧
      (titleAndExtension ['d', 'e', 'm', 'o']).2 =
        (['d', 'e', 'm', 'o'] : List Char).map Char.toUpper ∧
      getSubtitleValue false false
          (String.mk (titleAndExtension ['d', 'e', 'm', 'o']).2) =
        String.mk ((['d', 'e', 'm', 'o'] : List Char).map Char.toUpper) ++
          " audio file") :=
  ⟨by decide, by decide,
    titleAndExtension_noDot ['d', 'e', 'm', 'o'] (by decide) (by decide)⟩

/-! ## The Listen control's press handler

`onPressListen` runs only for a truthy `source`. On iOS with a live
player reference it presents the fullscreen player and returns.
Otherwise it starts `Linking.canOpenURL(source)`: if that promise
resolves `false` it alerts that no application can handle the request;
if it resolves `true` it chains into `Linking.openURL(source)`; if
either promise rejects, the single `catch` alerts an unknown error.
The handler is embedded as a pure function from the press context and
the outcomes of the two external promises to the list of observable
effects, in the order they occur. -/

inductive CanOpenOutcome
  | resolved (supported : Bool)
  | rejected
deriving DecidableEq

inductive OpenOutcome
  | resolved
  | rejected
deriving DecidableEq

inductive Effect
  | presentFullscreenPlayer
  | canOpenURL (url : String)
  | openURL (url : String)
  | alert (title message : String)
deriving DecidableEq

def Effect.isAlert : Effect → Bool
  | Effect.alert _ _ => true
  | _ => false

def Effect.isCanOpenCheck : Effect → Bool
  | Effect.canOpenURL _ => true
  | _ => false

def Effect.isOpenURL : Effect → Bool
  | Effect.openURL _ => true
  | _ => false

def problemTitle : String := "Problem opening the audio"

def noAppMessage : String := "No application can handle this request."

def unknownErrorMessage : String := "An unknown error occurred. Please try again."

/-- The effects of one press of the Listen control. `isIOS` embeds
`Platform.OS === 'ios'`, `hasPlayerRef` the truthiness of the stored
video-player reference, the empty string the falsiness of `source`,
and `c`/`o` the outcomes of the `canOpenURL` and `openURL` promises. -/
def onPressListen (isIOS hasPlayerRef : Bool) (source : String)
    (c : CanOpenOutcome) (o : OpenOutcome) : List Effect :=
  if source = "" then []
  else if isIOS && hasPlayerRef then [Effect.presentFullscreenPlayer]
  else
    Effect.canOpenURL source ::
      match c with
      | CanOpenOutcome.resolved false =>
          [Effect.alert problemTitle noAppMessage]
      | CanOpenOutcome.resolved true =>
          Effect.openURL source ::
            match o with
            | OpenOutcome.resolved => []
            | OpenOutcome.rejected =>
                [Effect.alert problemTitle unknownErrorMessage]
      | CanOpenOutcome.rejected =>
          [Effect.alert problemTitle unknownErrorMessage]

/-- Claim C1: with a non-empty source and off the iOS fullscreen path,
the press raises the no-application alert exactly when the capability
check resolves false, the unknown-error alert exactly when the check or
the subsequent open rejects, and no alert otherwise; every other effect
of the press is just the capability check or the URL open, so no other
failure handling occurs. -/
theorem onPressListen_alerts (isIOS hasPlayerRef : Bool) (source : String)
    (c : CanOpenOutcome) (o : OpenOutcome)
    (hs : source ≠ "") (hios : ¬(isIOS = true ∧ hasPlayerRef = true)) :
    ((onPressListen isIOS hasPlayerRef source c o).filter Effect.isAlert =
      if c = CanOpenOutcome.resolved false then
        [Effect.alert problemTitle noAppMessage]
      else if c = CanOpenOutcome.rejected ∨
          (c = CanOpenOutcome.resolved true ∧ o = OpenOutcome.rejected) then
        [Effect.alert problemTitle unknownErrorMessage]
      else []) ∧
    ∀ e ∈ onPressListen isIOS hasPlayerRef source c o,
      Effect.isAlert e = true ∨ e = Effect.canOpenURL source ∨
        e = Effect.openURL source := by
  have hpath : (isIOS && hasPlayerRef) = false := by
    cases isIOS <;> cases hasPlayerRef <;> simp_all
  cases c with
  | resolved supported =>
    cases supported <;> cases o <;>
      simp [onPressListen, hs, hpath, Effect.isAlert]
  | rejected =>
    cases o <;> simp [onPressListen, hs, hpath, Effect.isAlert]

theorem onPressListen_alerts_witness :
    ("file.mp3" : String) ≠ "" ∧
    ¬((false : Bool) = true ∧ (false : Bool) = true) ∧
    (((onPressListen false false "file.mp3"
          (CanOpenOutcome.resolved false) OpenOutcome.resolved).filter
        Effect.isAlert =
      if CanOpenOutcome.resolved false = CanOpenOutcome.resolved false then
        [Effect.alert problemTitle noAppMessage]
      else if CanOpenOutcome.resolved false = CanOpenOutcome.rejected ∨
          (CanOpenOutcome.resolved false = CanOpenOutcome.resolved true ∧
            OpenOutcome.resolved = OpenOutcome.rejected) then
        [Effect.alert problemTitle unknownErrorMessage]
      else []) ∧
    ∀ e ∈ onPressListen false false "file.mp3"
        (CanOpenOutcome.resolved false) OpenOutcome.resolved,
      Effect.isAlert e = true ∨ e = Effect.canOpenURL "file.mp3" ∨
        e = Effect.openURL "file.mp3") :=
  ⟨by decide, by decide,
    onPressListen_alerts false false "file.mp3"
      (CanOpenOutcome.resolved false) OpenOutcome.resolved
      (by decide) (by decide)⟩

/-- Claim C3: per press at most one capability check is started, on the
iOS path with a live player reference none is started, and otherwise
(non-empty source) the press is exactly one check followed by its
success branch (open the URL, or the no-application alert) or its
failure branch (the unknown-error alert). -/
theorem onPressListen_singleAsync (isIOS hasPlayerRef : Bool) (source : String)
    (c : CanOpenOutcome) (o : OpenOutcome) :
    ((onPressListen isIOS hasPlayerRef source c o).filter
        Effect.isCanOpenCheck).length ≤ 1 ∧
    (isIOS = true → hasPlayerRef = true →
      (onPressListen isIOS hasPlayerRef source c o).filter
          Effect.isCanOpenCheck = []) ∧
    (source ≠ "" → ¬(isIOS = true ∧ hasPlayerRef = true) →
      (c = CanOpenOutcome.resolved false →
        onPressListen isIOS hasPlayerRef source c o =
          [Effect.canOpenURL source,
            Effect.alert problemTitle noAppMessage]) ∧
      (c = CanOpenOutcome.resolved true →
        onPressListen isIOS hasPlayerRef source c o =
          Effect.canOpenURL source :: Effect.openURL source ::
            (if o = OpenOutcome.rejected then
              [Effect.alert problemTitle unknownErrorMessage]
            else [])) ∧
      (c = CanOpenOutcome.rejected →
        onPressListen isIOS hasPlayerRef source c o =
          [Effect.canOpenURL source,
            Effect.alert problemTitle unknownErrorMessage])) := by
  refine ⟨?_, ?_, ?_⟩
  · by_cases hs : source = ""
    · simp [onPressListen, hs]
    · by_cases hp : (isIOS && hasPlayerRef) = true
      · simp [onPressListen, hs, hp, Effect.isCanOpenCheck]
      · have hp' : (isIOS && hasPlayerRef) = false := by simpa using hp
        cases c with
        | resolved s =>
          cases s <;> cases o <;>
            simp [onPressListen, hs, hp', Effect.isCanOpenCheck]
        | rejected =>
          simp [onPressListen, hs, hp', Effect.isCanOpenCheck]
  · intro hi hr
    subst hi
    subst hr
    by_cases hs : source = "" <;>
      simp [onPressListen, hs, Effect.isCanOpenCheck]
  · intro hs hnios
    have hp' : (isIOS && hasPlayerRef) = false := by
      cases isIOS <;> cases hasPlayerRef <;> simp_all
    refine ⟨?_, ?_, ?_⟩ <;> intro hc <;> subst hc
    · simp [onPressListen, hs, hp']
    · cases o <;> simp [onPressListen, hs, hp']
    · simp [onPressListen, hs, hp']

theorem onPressListen_singleAsync_witness :
    ("file.mp3" : String) ≠ "" ∧
    ¬((false : Bool) = true ∧ (true : Bool) = true) ∧
    CanOpenOutcome.rejected = CanOpenOutcome.rejected ∧
    onPressListen false true "file.mp3" CanOpenOutcome.rejected
        OpenOutcome.resolved =
      [Effect.canOpenURL "file.mp3",
        Effect.alert problemTitle unknownErrorMessage] :=
  ⟨by decide, by decide, rfl,
    ((onPressListen_singleAsync false true "file.mp3" CanOpenOutcome.rejected
        OpenOutcome.resolved).2.2 (by decide) (by decide)).2.2 rfl⟩

/-! ## The `paused` flag

`paused` is the Player's only piece of component state
(`useState(true)`). The handlers that the component installs are the
Listen press handler, the video ref callback, and the two fullscreen
callbacks of the video player; only the latter two call `setPaused`. -/

inductive PlayerEvent
  | pressListen (c : CanOpenOutcome) (o : OpenOutcome)
  | videoRefAssigned
  | fullscreenWillPresent
  | fullscreenDidDismiss
deriving DecidableEq

/-- The `useState(true)` initial value of `paused`. -/
def initialPaused : Bool := true

/-- How each handler of the component updates `paused`:
`onFullscreenPlayerWillPresent` calls `setPaused(false)`,
`onFullscreenPlayerDidDismiss` calls `setPaused(true)`, and neither the
press handler nor the ref callback calls `setPaused`. -/
def pausedAfter (paused : Bool) : PlayerEvent → Bool
  | PlayerEvent.pressListen _ _ => paused
  | PlayerEvent.videoRefAssigned => paused
  | PlayerEvent.fullscreenWillPresent => false
  | PlayerEvent.fullscreenDidDismiss => true

/-- Claim C4: `paused` starts `true`, becomes `false` exactly on the
fullscreen-will-present callback, becomes `true` exactly on the
fullscreen-did-dismiss callback, and every other operation of the
component leaves it unchanged. -/
theorem paused_state_machine :
    initialPaused = true ∧
    (∀ p : Bool, pausedAfter p PlayerEvent.fullscreenWillPresent = false) ∧
    (∀ p : Bool, pausedAfter p PlayerEvent.fullscreenDidDismiss = true) ∧
    (∀ (p : Bool) (e : PlayerEvent),
      e ≠ PlayerEvent.fullscreenWillPresent →
      e ≠ PlayerEvent.fullscreenDidDismiss →
        pausedAfter p e = p) := by
  refine ⟨rfl, fun p => rfl, fun p => rfl, ?_⟩
  intro p e h1 h2
  cases e with
  | pressListen c o => rfl
  | videoRefAssigned => rfl
  | fullscreenWillPresent => exact absurd rfl h1
  | fullscreenDidDismiss => exact absurd rfl h2

theorem paused_state_machine_witness :
    PlayerEvent.pressListen CanOpenOutcome.rejected OpenOutcome.resolved ≠
        PlayerEvent.fullscreenWillPresent ∧
    PlayerEvent.pressListen CanOpenOutcome.rejected OpenOutcome.resolved ≠
        PlayerEvent.fullscreenDidDismiss ∧
    pausedAfter false
        (PlayerEvent.pressListen CanOpenOutcome.rejected OpenOutcome.resolved) =
      false :=
  ⟨by decide, by decide,
    paused_state_machine.2.2.2 false
      (PlayerEvent.pressListen CanOpenOutcome.rejected OpenOutcome.resolved)
      (by decide) (by decide)⟩

/-- Claim C5: whenever a press raises an alert, that alert is the final
effect of the press (the promise chain ends there, nothing is
propagated), the press performed at most one capability check and at
most one URL open (no retry), and the `paused` state is untouched by
the press handler. -/
theorem onPressListen_noRetry (isIOS hasPlayerRef p : Bool) (source : String)
    (c : CanOpenOutcome) (o : OpenOutcome) (t m : String)
    (ha : Effect.alert t m ∈ onPressListen isIOS hasPlayerRef source c o) :
    (∃ pre, onPressListen isIOS hasPlayerRef source c o =
      pre ++ [Effect.alert t m]) ∧
    ((onPressListen isIOS hasPlayerRef source c o).filter
        Effect.isCanOpenCheck).length ≤ 1 ∧
    ((onPressListen isIOS hasPlayerRef source c o).filter
        Effect.isOpenURL).length ≤ 1 ∧
    pausedAfter p (PlayerEvent.pressListen c o) = p := by
  by_cases hs : source = ""
  · simp [onPressListen, hs] at ha
  · by_cases hp : (isIOS && hasPlayerRef) = true
    · simp [onPressListen, hs, hp] at ha
    · have hp' : (isIOS && hasPlayerRef) = false := by simpa using hp
      cases c with
      | resolved s =>
        cases s with
        | false =>
          simp [onPressListen, hs, hp'] at ha
          obtain ⟨ht, hm⟩ := ha
          subst ht
          subst hm
          exact ⟨⟨[Effect.canOpenURL source], by simp [onPressListen, hs, hp']⟩,
            by simp [onPressListen, hs, hp', Effect.isCanOpenCheck],
            by simp [onPressListen, hs, hp', Effect.isOpenURL], rfl⟩
        | true =>
          cases o with
          | resolved =>
            simp [onPressListen, hs, hp'] at ha
          | rejected =>
            simp [onPressListen, hs, hp'] at ha
            obtain ⟨ht, hm⟩ := ha
            subst ht
            subst hm
            exact ⟨⟨[Effect.canOpenURL source, Effect.openURL source],
                by simp [onPressListen, hs, hp']⟩,
              by simp [onPressListen, hs, hp', Effect.isCanOpenCheck],
              by simp [onPressListen, hs, hp', Effect.isOpenURL], rfl⟩
      | rejected =>
        simp [onPressListen, hs, hp'] at ha
        obtain ⟨ht, hm⟩ := ha
        subst ht
        subst hm
        exact ⟨⟨[Effect.canOpenURL source], by simp [onPressListen, hs, hp']⟩,
          by simp [onPressListen, hs, hp', Effect.isCanOpenCheck],
          by simp [onPressListen, hs, hp', Effect.isOpenURL], rfl⟩

theorem onPressListen_noRetry_witness :
    Effect.alert problemTitle unknownErrorMessage ∈
      onPressListen false false "file.mp3" CanOpenOutcome.rejected
        OpenOutcome.resolved ∧
    (∃ pre, onPressListen false false "file.mp3" CanOpenOutcome.rejected
        OpenOutcome.resolved =
      pre ++ [Effect.alert problemTitle unknownErrorMessage]) ∧
    ((onPressListen false false "file.mp3" CanOpenOutcome.rejected
        OpenOutcome.resolved).filter Effect.isCanOpenCheck).length ≤ 1 ∧
    ((onPressListen false false "file.mp3" CanOpenOutcome.rejected
        OpenOutcome.resolved).filter Effect.isOpenURL).length ≤ 1 ∧
    pausedAfter true
        (PlayerEvent.pressListen CanOpenOutcome.rejected OpenOutcome.resolved) =
      true :=
  ⟨by decide,
    onPressListen_noRetry false false true "file.mp3" CanOpenOutcome.rejected
      OpenOutcome.resolved problemTitle unknownErrorMessage (by decide)⟩

/-! ## Page-break block module exports

`index.js` of the page-break block destructures `name` out of the
imported `block.json` metadata, re-exports both, and exports a
`settings` object literal. The imported `edit`, `save`, `transforms`
and icon values, and the metadata object, live outside the supplied
sources; they enter the model as opaque parameters since only their
identity matters here. -/

/-- The `__` translation function of the i18n package with no loaded
translations: it returns its argument unchanged. -/
def translate (s : String) : String := s

/-- The block's `block.json` metadata object; only its `name` field is
read by the module. -/
structure BlockMetadata where
  name : String

/-- The empty object literal assigned to the `example` field. -/
structure ExampleRecord

/-- The shape of the exported `settings` object: exactly the fields the
object literal assigns. -/
structure BlockSettings (Icon Transforms Component : Type) where
  title : String
  description : String
  icon : Icon
  keywords : List String
  «example» : ExampleRecord
  transforms : Transforms
  edit : Component
  save : Component

namespace nextpage

/-- `const name = metadata.name` (destructuring), re-exported. -/
def name (metadata : BlockMetadata) : String := metadata.name

/-- The exported `settings` object literal. -/
def settings {Icon Transforms Component : Type} (icon : Icon)
    (transforms : Transforms) (edit save : Component) :
    BlockSettings Icon Transforms Component :=
  { title := translate "Page Break"
    description := translate "Separate your content into a multi-page experience."
    icon := icon
    keywords := [translate "next page", translate "pagination"]
    «example» := {}
    transforms := transforms
    edit := edit
    save := save }

end nextpage

/-- Claim C6: the module's exported `name` is the `name` field of its
`block.json` metadata, and its exported `settings` consists exactly of
`title` (`'Page Break'`), `description`, `icon`, `keywords`
(`'next page'`, `'pagination'`), an empty `example` record,
`transforms`, `edit` and `save`. -/
theorem nextpage_exports {Icon Transforms Component : Type}
    (metadata : BlockMetadata) (icon : Icon) (transforms : Transforms)
    (edit save : Component) :
    nextpage.name metadata = metadata.name ∧
    nextpage.settings icon transforms edit save =
      { title := "Page Break"
        description := "Separate your content into a multi-page experience."
        icon := icon
        keywords := ["next page", "pagination"]
        «example» := {}
        transforms := transforms
        edit := edit
        save := save } :=
  ⟨rfl, rfl⟩

/-- Claim C10: with both upload flags set the subtitle reads
`'Uploading…'` (the in-progress message wins); whenever either flag is
set the subtitle is one of the two status messages; the
extension-based subtitle appears exactly when both flags are clear. -/
theorem getSubtitleValue_precedence :
    (∀ ext : String, getSubtitleValue true true ext = "Uploading…") ∧
    (∀ (ip uf : Bool) (ext : String), ip = true ∨ uf = true →
      getSubtitleValue ip uf ext = "Uploading…" ∨
      getSubtitleValue ip uf ext =
        "Failed to insert audio file. Please tap for options.") ∧
    (∀ ext : String,
      getSubtitleValue false false ext = ext ++ " audio file") := by
  refine ⟨fun ext => rfl, ?_, fun ext => rfl⟩
  intro ip uf ext h
  cases ip with
  | true => exact Or.inl rfl
  | false =>
    cases uf with
    | true => exact Or.inr rfl
    | false => rcases h with h | h <;> exact absurd h (by decide)

theorem getSubtitleValue_precedence_witness :
    ((true : Bool) = true ∨ (false : Bool) = true) ∧
    (getSubtitleValue true false "MP3" = "Uploading…" ∨
      getSubtitleValue true false "MP3" =
        "Failed to insert audio file. Please tap for options.") :=
  ⟨Or.inl rfl, getSubtitleValue_precedence.2.1 true false "MP3" (Or.inl rfl)⟩

/-! ## Derived style objects of the Player render

Flat style objects are association lists from property names to values.
`setKey` and `spread` embed the JavaScript object spread used by the
source: each property of the second object is assigned onto a copy of
the first, overriding an existing key in place and appending a new one.
The named styles of `styles.scss` are not part of the supplied sources,
so the style sheet is a parameter of the model. -/

abbrev Style : Type := List (String × Int)

def setKey (s : Style) (k : String) (v : Int) : Style :=
  if s.any (fun kv => kv.1 = k) then
    s.map (fun kv => if kv.1 = k then (k, v) else kv)
  else s ++ [(k, v)]

def spread (a b : Style) : Style :=
  b.foldl (fun acc kv => setKey acc kv.1 kv.2) a

/-- Spread of a conditional object, as in the source's
`...( isDisabled && iconDisabledStyle )`: spreading the falsy branch
adds nothing. -/
def spreadIf (a : Style) (cond : Bool) (b : Style) : Style :=
  if cond then spread a b else a

/-- `getStylesFromColorScheme` supplied by `withPreferredColorScheme`:
picks the dark variant when the preferred color scheme is dark and the
light variant otherwise. -/
def getStylesFromColorScheme (darkMode : Bool) (light dark : Style) : Style :=
  if darkMode then dark else light

/-- The named entries of the Player's `styles.scss` sheet. -/
structure StyleSheet where
  container : Style
  containerDark : Style
  icon : Style
  iconDark : Style
  iconDisabled : Style
  iconDisabledDark : Style
  iconContainer : Style
  iconContainerDark : Style
  titleContainer : Style
  titleContainerIOS : Style
  titleContainerAndroid : Style
  title : Style
  titleDark : Style
  uploadFailed : Style
  uploadFailedDark : Style
  subtitle : Style
  subtitleDark : Style
  buttonText : Style
  buttonTextIOS : Style
  buttonTextAndroid : Style
  subtitleContainer : Style
  errorIcon : Style

/-- The style objects the Player render derives from its inputs. -/
structure DerivedStyles where
  containerStyle : Style
  finalIconStyle : Style
  iconContainerStyle : Style
  titleContainerStyle : Style
  titleStyle : Style
  finalSubtitleStyle : Style
  buttonTextStyle : Style
  errorIconStyle : Style

/-- `isDisabled = isUploadFailed || isUploadInProgress`. -/
def isDisabled (isUploadFailed isUploadInProgress : Bool) : Bool :=
  isUploadFailed || isUploadInProgress

/-- The style computations of the Player's render body, in source
order: color-scheme selections, the disabled icon overlay, the
platform-specific title-container and button-text merges, the failed
subtitle overlay, and the inline error-icon merge. -/
def deriveStyles (st : StyleSheet)
    (darkMode isIOS isUploadInProgress isUploadFailed : Bool) :
    DerivedStyles :=
  let g := getStylesFromColorScheme darkMode
  let disabled := isDisabled isUploadFailed isUploadInProgress
  { containerStyle := g st.container st.containerDark
    finalIconStyle :=
      spreadIf (g st.icon st.iconDark) disabled
        (g st.iconDisabled st.iconDisabledDark)
    iconContainerStyle := g st.iconContainer st.iconContainerDark
    titleContainerStyle :=
      spread st.titleContainer
        (if isIOS then st.titleContainerIOS else st.titleContainerAndroid)
    titleStyle := g st.title st.titleDark
    finalSubtitleStyle :=
      spreadIf (g st.subtitle st.subtitleDark) isUploadFailed
        (g st.uploadFailed st.uploadFailedDark)
    buttonTextStyle :=
      spread st.buttonText
        (if isIOS then st.buttonTextIOS else st.buttonTextAndroid)
    errorIconStyle :=
      spread st.errorIcon (g st.uploadFailed st.uploadFailedDark) }

/-- Everything the Player render reads when deriving styles and the
subtitle text: its props, the platform flag and the color scheme. -/
structure RenderInputs where
  sheet : StyleSheet
  darkMode : Bool
  platformIsIOS : Bool
  fileName : String
  isUploadInProgress : Bool
  isUploadFailed : Bool

/-- The derived style objects together with the subtitle text of one
render. -/
def renderDerived (i : RenderInputs) : DerivedStyles × String :=
  (deriveStyles i.sheet i.darkMode i.platformIsIOS i.isUploadInProgress
      i.isUploadFailed,
    getSubtitleValue i.isUploadInProgress i.isUploadFailed
      (playerExtension i.fileName))

/-- Claim C7: the derived style objects and the subtitle text are a
deterministic function of the props, the platform flag and the color
scheme — two renders over equal inputs produce equal style objects and
equal subtitle text. -/
theorem render_deterministic (i j : RenderInputs) (h : i = j) :
    renderDerived i = renderDerived j := by
  rw [h]

def demoSheet : StyleSheet :=
  ⟨[], [], [], [], [], [], [], [], [], [], [], [], [], [], [], [], [],
    [], [], [], [], []⟩

def demoInputs : RenderInputs :=
  { sheet := demoSheet
    darkMode := false
    platformIsIOS := false
    fileName := "song.mp3"
    isUploadInProgress := false
    isUploadFailed := false }

theorem render_deterministic_witness :
    demoInputs = demoInputs ∧ renderDerived demoInputs = renderDerived demoInputs :=
  ⟨rfl, render_deterministic demoInputs demoInputs rfl⟩

/-! ## Gating of the Listen control -/

/-- The Listen control is wrapped in `! isDisabled && ...`: it is in
the rendered tree exactly when the Player is not disabled. -/
def listenRendered (isUploadFailed isUploadInProgress : Bool) : Bool :=
  !(isDisabled isUploadFailed isUploadInProgress)

/-- The press effects reachable through the rendered tree: when the
Listen control is not rendered there is nothing to press, so no effect
can occur. -/
def renderedPressEffects
    (isUploadFailed isUploadInProgress isIOS hasPlayerRef : Bool)
    (source : String) (c : CanOpenOutcome) (o : OpenOutcome) : List Effect :=
  if listenRendered isUploadFailed isUploadInProgress then
    onPressListen isIOS hasPlayerRef source c o
  else []

/-- Claim C9: the Listen control is rendered only when the Player is
not disabled (`isUploadFailed || isUploadInProgress`); while an upload
is in progress or has failed no press can start a capability check or
open a URL. -/
theorem listen_control_gated (isUploadFailed isUploadInProgress : Bool)
    (h : isUploadInProgress = true ∨ isUploadFailed = true) :
    listenRendered isUploadFailed isUploadInProgress = false ∧
    ∀ (isIOS hasPlayerRef : Bool) (source : String) (c : CanOpenOutcome)
        (o : OpenOutcome),
      renderedPressEffects isUploadFailed isUploadInProgress isIOS
          hasPlayerRef source c o = [] := by
  have hd : isDisabled isUploadFailed isUploadInProgress = true := by
    rcases h with h | h <;> simp [isDisabled, h]
  refine ⟨by simp [listenRendered, hd], ?_⟩
  intro _ _ _ _ _
  simp [renderedPressEffects, listenRendered, hd]

theorem listen_control_gated_witness :
    ((false : Bool) = true ∨ (true : Bool) = true) ∧
    listenRendered true false = false ∧
    renderedPressEffects true false false false "file.mp3"
        CanOpenOutcome.rejected OpenOutcome.resolved = [] :=
  ⟨Or.inr rfl, (listen_control_gated true false (Or.inr rfl)).1,
    (listen_control_gated true false (Or.inr rfl)).2 false false "file.mp3"
      CanOpenOutcome.rejected OpenOutcome.resolved⟩

end Gutenberg
